import Mathlib

/-
Verification of the suggestion-negotiation core of gcpai (src/gcpai.py).

Python strings are modelled as Lean `String` (a wrapper around `List Char`);
`str.strip`, `str.lower`, `str.capitalize` are modelled over the ASCII range,
which is the range where the data of the program (prompts, commit prefixes,
user decision letters) lives in.  Python floats used for the sampling
temperature are modelled as exact rationals (`ℚ`), since the specified
temperature schedule (base, +0.2 steps, clamp at 1.0) is stated in exact
decimal arithmetic.  The OpenAI completion call is an external collaborator
and is modelled as an abstract function argument (`complete`), fallible where
the error path matters.  `git` is likewise external and is modelled as an
abstract command runner together with a small repository-state model
(HEAD snapshot, index, working tree).
-/

/-! ### Python string primitives (ASCII model) -/

/-- ASCII model of Python `str.lower` on a single character. -/
def pyToLower (c : Char) : Char :=
  match c with
  | 'A' => 'a' | 'B' => 'b' | 'C' => 'c' | 'D' => 'd' | 'E' => 'e' | 'F' => 'f'
  | 'G' => 'g' | 'H' => 'h' | 'I' => 'i' | 'J' => 'j' | 'K' => 'k' | 'L' => 'l'
  | 'M' => 'm' | 'N' => 'n' | 'O' => 'o' | 'P' => 'p' | 'Q' => 'q' | 'R' => 'r'
  | 'S' => 's' | 'T' => 't' | 'U' => 'u' | 'V' => 'v' | 'W' => 'w' | 'X' => 'x'
  | 'Y' => 'y' | 'Z' => 'z'
  | c => c

/-- ASCII model of Python `str.upper` on a single character (used by
`str.capitalize` for the first character). -/
def pyToUpper (c : Char) : Char :=
  match c with
  | 'a' => 'A' | 'b' => 'B' | 'c' => 'C' | 'd' => 'D' | 'e' => 'E' | 'f' => 'F'
  | 'g' => 'G' | 'h' => 'H' | 'i' => 'I' | 'j' => 'J' | 'k' => 'K' | 'l' => 'L'
  | 'm' => 'M' | 'n' => 'N' | 'o' => 'O' | 'p' => 'P' | 'q' => 'Q' | 'r' => 'R'
  | 's' => 'S' | 't' => 'T' | 'u' => 'U' | 'v' => 'V' | 'w' => 'W' | 'x' => 'X'
  | 'y' => 'Y' | 'z' => 'Z'
  | c => c

/-- The whitespace characters stripped by Python `str.strip()` (ASCII range). -/
def isPySpace (c : Char) : Bool :=
  c == ' ' || c == '\t' || c == '\n' || c == '\r' || c == '\x0b' || c == '\x0c'

/-- Python `str.strip()` on character lists: drop whitespace from both ends. -/
def stripL (l : List Char) : List Char :=
  ((l.dropWhile isPySpace).reverse.dropWhile isPySpace).reverse

/-- Python `str.strip()`. -/
def pyStrip (s : String) : String := ⟨stripL s.data⟩

/-- Python `str.lower()`. -/
def pyLower (s : String) : String := ⟨s.data.map pyToLower⟩

/-- Python `str.capitalize()` on character lists: first character upper-cased,
every following character lower-cased. -/
def capitalizeL : List Char → List Char
  | [] => []
  | c :: cs => pyToUpper c :: cs.map pyToLower

/-- Python `str.capitalize()`. -/
def pyCapitalize (s : String) : String := ⟨capitalizeL s.data⟩

/-- The backtick character (written by code point to keep it out of the
source text). -/
def backtickChar : Char := Char.ofNat 96

/-- Holds for characters other than a backtick; `.replace("\x60", "")` is
`filter notBacktick`. -/
def notBacktick (c : Char) : Bool := c != backtickChar

/-- Python `"sub" in s` (substring containment): does `hay` start with
`needle`? -/
def startsWithL : List Char → List Char → Bool
  | [], _ => true
  | _ :: _, [] => false
  | c :: cs, d :: ds => c == d && startsWithL cs ds

/-- Python `needle in hay` (substring containment) on character lists. -/
def containsSeq (needle : List Char) : List Char → Bool
  | [] => startsWithL needle []
  | hay@(_ :: rest) => startsWithL needle hay || containsSeq needle rest

/-- Python `needle in hay` for strings. -/
def pyContains (needle hay : String) : Bool := containsSeq needle.data hay.data

/-- Python `s.split(sep, 1)` for a one-character separator, when the separator
occurs: `some (before, after)` splits at the first `':'`;
`none` when no colon occurs. -/
def splitFirstColon : List Char → Option (List Char × List Char)
  | [] => none
  | c :: cs =>
    if c = ':' then some ([], cs)
    else (splitFirstColon cs).map (fun p => (c :: p.1, p.2))

/-! ### `get_openai_suggestion` post-processing (src/gcpai.py lines 47-58)

The body of the `try` block:
`suggestion = response...content.strip().replace("\x60", "")`, then the
colon rule: when a `':'` occurs, split at the first colon, strip both parts,
and unless the description starts with `'['`, rewrite the suggestion as
`f"{commit_type}: {commit_desc.capitalize()}"`. -/

/-- Lines 50-57: the colon/capitalization rewrite, on character lists. -/
def colonRuleL (l : List Char) : List Char :=
  match splitFirstColon l with
  | none => l
  | some (p, q) =>
    let commit_type := stripL p
    let commit_desc := stripL q
    if commit_desc.head? = some '[' then l
    else commit_type ++ ':' :: ' ' :: capitalizeL commit_desc

/-- Lines 47-58 on character lists: strip, remove backticks, colon rule. -/
def postL (l : List Char) : List Char :=
  colonRuleL ((stripL l).filter notBacktick)

/-- The whole post-processing that `get_openai_suggestion` applies to the
raw completion content before returning it (lines 47-58). -/
def postprocessSuggestion (s : String) : String := ⟨postL s.data⟩

/-- Model of `get_openai_suggestion` (success path): one completion call at the given
prompt and temperature, post-processed.  `complete` abstracts the remote
`client.chat.completions.create` call returning the message content. -/
def get_openai_suggestion (complete : String → ℚ → String)
    (prompt : String) (temperature : ℚ) : String :=
  postprocessSuggestion (complete prompt temperature)

/-- Model of `get_openai_suggestion` with the error path (lines 59-61): a failing
completion call is reported and the process exits with code 1, modelled as
`Except Nat` whose error value is the exit code.  No retry: the single
`complete` application below is the only service call. -/
def get_openai_suggestion_e (complete : String → ℚ → Except String String)
    (prompt : String) (temperature : ℚ) : Except Nat String :=
  match complete prompt temperature with
  | .ok content => .ok (postprocessSuggestion content)
  | .error _ => .error 1

/-! ### Prompt builders (src/gcpai.py lines 63-135)

The prompt text is reproduced verbatim from the source (apostrophes are
written as the escape `\x27`). -/

/-- The shared rejection-history block (lines 88-91 and 129-132):
appended only when `history` is non-empty (Python truthiness of a list). -/
def historyBlock (history : List String) : String :=
  if history = [] then ""
  else
    "\n\nCrucially, provide a different and unique suggestion from the ones I have already rejected:\n- "
      ++ String.intercalate "\n- " history

/-- The prompt built by `generate_commit_message` (lines 63-93). -/
def generate_commit_message_prompt (diff : String) (history : List String)
    (change_type : Option String) : String :=
  let base :=
    match change_type with
    | some ct =>
      "You are an assistant that generates commit messages in the conventional commits format.\n"
        ++ "Based on the git diff below, generate a short, clear commit message in English.\n"
        ++ "The commit message must start with \x27" ++ ct ++ ": \x27.\n"
        ++ "The description after the type MUST start with a capital letter.\n"
        ++ "Example: " ++ ct ++ ": Describe the change.\n"
        ++ "Only the message, with no extra explanations or remarks.\n"
        ++ "Generate ONLY ONE commit message, with no line breaks or special formatting.\n"
        ++ "Nothing but a commit message."
    | none =>
      "You are an assistant that generates commit messages in the conventional commits format.\n"
        ++ "Based on the git diff below, identify the MOST SIGNIFICANT change and generate a short, clear commit message in English about it.\n"
        ++ "Focus on the main purpose of the change.\n"
        ++ "Use prefixes like feat, fix, chore, refactor, test, docs, style, perf, ci, build, revert etc.\n"
        ++ "The description after the type MUST start with a capital letter.\n"
        ++ "Only the message, with no extra explanations or remarks.\n"
        ++ "Generate ONLY ONE commit message, with no line breaks or special formatting.\n"
        ++ "Nothing but a commit message."
  base ++ historyBlock history ++ "\n\nDiff:\n" ++ diff

/-- Model of `generate_commit_message` (lines 63-94): build the prompt, call the
service at the given temperature, post-process.  The default temperature in
the Python signature is 0.3. -/
def generate_commit_message (complete : String → ℚ → String) (diff : String)
    (temperature : ℚ) (history : List String) (change_type : Option String) : String :=
  get_openai_suggestion complete
    (generate_commit_message_prompt diff history change_type) temperature

/-- The prompt built by `generate_pr_title` (lines 96-105). -/
def generate_pr_title_prompt (diff : String) : String :=
  "You are an assistant that generates Pull Request titles.\n"
    ++ "Based on the TOTAL git diff of a branch below, generate a comprehensive and concise PR title in English.\n"
    ++ "The title should summarize all the changes, not just one part of it.\n"
    ++ "It should follow the conventional commits format (e.g., \x27feat: Add user authentication and profile management\x27).\n"
    ++ "The description after the type MUST start with a capital letter.\n"
    ++ "Generate ONLY the title, with no extra explanations or remarks."
    ++ "\n\nDiff:\n" ++ diff

/-- Model of `generate_pr_title` (lines 96-106) with an explicit temperature. -/
def generate_pr_title (complete : String → ℚ → String) (diff : String)
    (temperature : ℚ) : String :=
  get_openai_suggestion complete (generate_pr_title_prompt diff) temperature

/-- Model of `generate_pr_title` as `main` invokes it (line 273): with the
default temperature 0.4 from the Python signature. -/
def generate_pr_title_default (complete : String → ℚ → String) (diff : String) : String :=
  generate_pr_title complete diff (2/5)

/-- The prompt built by `generate_branch_name` (lines 108-134). -/
def generate_branch_name_prompt (diff : String) (history : List String)
    (change_type : Option String) : String :=
  let base :=
    match change_type with
    | some ct =>
      "You are an assistant that generates Git branch names.\n"
        ++ "Based on the git diff below, generate a short, descriptive branch name in English.\n"
        ++ "The branch name must start with \x27" ++ ct ++ "/\x27 and use hyphens to separate words.\n"
        ++ "Example: " ++ ct ++ "/a-descriptive-name.\n"
        ++ "Generate ONLY the branch name, with no extra explanations or remarks."
    | none =>
      "You are an assistant that generates Git branch names.\n"
        ++ "Based on the git diff below, identify the MOST SIGNIFICANT change and generate a short, descriptive branch name in English for it, "
        ++ "using hyphens to separate words and following the \x27type/short-description\x27 format.\n"
        ++ "The name should reflect the main purpose of the changes.\n"
        ++ "Use prefixes like feat/, fix/, chore/, refactor/, test/, docs/, style/, perf/, ci/, build/, revert/.\n"
        ++ "Examples: feat/add-user-login, fix/resolve-payment-bug, chore/update-dependencies.\n"
        ++ "Generate ONLY the branch name, with no extra explanations or remarks."
  base ++ historyBlock history ++ "\n\nDiff:\n" ++ diff

/-- Model of `generate_branch_name` (lines 108-135).  The default
temperature in the Python signature is 0.5. -/
def generate_branch_name (complete : String → ℚ → String) (diff : String)
    (temperature : ℚ) (history : List String) (change_type : Option String) : String :=
  get_openai_suggestion complete
    (generate_branch_name_prompt diff history change_type) temperature

/-! ### The negotiation loop `user_interaction_loop` (src/gcpai.py lines 137-164)

The generator argument mirrors the Python call
`generation_function(diff, temperature=..., history=..., change_type=...)`.
User input is modelled as a list of lines still to be read; when that list is
exhausted the loop is still awaiting input, modelled by the outer `none`.
A terminated loop yields `some out` where `out : Option String` is exactly
the Python return value: `some text` for an accepted suggestion, `none`
(Python `None`) for a canceled negotiation.  Alongside the outcome the model
records the trace of generator calls as `(temperature, history, suggestion)`
triples, one per loop iteration. -/

/-- The type of `generation_function`: diff, temperature, history,
change type, giving the post-processed suggestion. -/
abbrev GenFn := String → ℚ → List String → Option String → String

/-- Lines 144-164: the `while True` body.  `response` is
`input(...).strip().lower()`; `response in ("y", "")` accepts, `"r"`
regenerates (appending a truthy, i.e. non-empty, suggestion to the history
and raising the temperature by `0.2` clamped at `1.0`), anything else
cancels. -/
def user_interaction_loop_go (gen : GenFn) (diff : String) (change_type : Option String) :
    List String → ℚ → List String →
      Option (Option String) × List (ℚ × List String × String)
  | [], suggested_temperature, previous_suggestions =>
    (none, [(suggested_temperature, previous_suggestions,
             gen diff suggested_temperature previous_suggestions change_type)])
  | line :: rest, suggested_temperature, previous_suggestions =>
    let suggestion := gen diff suggested_temperature previous_suggestions change_type
    let response := pyLower (pyStrip line)
    if response = "y" ∨ response = "" then
      (some (some suggestion), [(suggested_temperature, previous_suggestions, suggestion)])
    else if response = "r" then
      let next := user_interaction_loop_go gen diff change_type rest
        (min 1 (suggested_temperature + 1/5))
        (if suggestion = "" then previous_suggestions
         else previous_suggestions ++ [suggestion])
      (next.1, (suggested_temperature, previous_suggestions, suggestion) :: next.2)
    else
      (some none, [(suggested_temperature, previous_suggestions, suggestion)])

/-- Lines 138-141: the base temperature chosen from the prompt question:
`0.5` when `"branch" in prompt_question.lower()`, else `0.3`. -/
def suggestedTemperature (prompt_question : String) : ℚ :=
  if pyContains "branch" (pyLower prompt_question) then 1/2 else 3/10

/-- Model of `user_interaction_loop` (lines 137-164): base temperature from the
prompt question, empty initial history. -/
def user_interaction_loop (prompt_question : String) (gen : GenFn) (diff : String)
    (change_type : Option String) (inputs : List String) :
    Option (Option String) × List (ℚ × List String × String) :=
  user_interaction_loop_go gen diff change_type inputs
    (suggestedTemperature prompt_question) []

/-- The three decisions the loop distinguishes in one input line
(lines 153-164). -/
inductive Decision
  | accept
  | regen
  | cancel
deriving DecidableEq

/-- How one input line is decided: `strip`, `lower`, then
empty/`y` accepts, `r` regenerates, anything else cancels. -/
def decisionOf (line : String) : Decision :=
  let response := pyLower (pyStrip line)
  if response = "y" ∨ response = "" then .accept
  else if response = "r" then .regen
  else .cancel

/-- The loop over a fallible generator (exception propagation: a generator
call that exits the process ends the loop run with that exit code before any
input is read in that iteration). -/
def user_interaction_loop_go_e (gen : String → ℚ → List String → Option String → Except Nat String)
    (diff : String) (change_type : Option String) :
    List String → ℚ → List String → Except Nat (Option (Option String))
  | inputs, suggested_temperature, previous_suggestions =>
    match gen diff suggested_temperature previous_suggestions change_type with
    | .error code => .error code
    | .ok suggestion =>
      match inputs with
      | [] => .ok none
      | line :: rest =>
        let response := pyLower (pyStrip line)
        if response = "y" ∨ response = "" then .ok (some (some suggestion))
        else if response = "r" then
          user_interaction_loop_go_e gen diff change_type rest
            (min 1 (suggested_temperature + 1/5))
            (if suggestion = "" then previous_suggestions
             else previous_suggestions ++ [suggestion])
        else .ok (some none)

/-- Model of `user_interaction_loop` over a fallible generator. -/
def user_interaction_loop_e (prompt_question : String)
    (gen : String → ℚ → List String → Option String → Except Nat String)
    (diff : String) (change_type : Option String) (inputs : List String) :
    Except Nat (Option (Option String)) :=
  user_interaction_loop_go_e gen diff change_type inputs
    (suggestedTemperature prompt_question) []

/-! ### State evolution helpers for the loop proofs -/

/-- The temperature state after one regeneration per element of `steps`:
`min(1.0, t + 0.2)` each time (line 160). -/
def tempAfter : List String → ℚ → ℚ
  | [], t => t
  | _ :: steps, t => tempAfter steps (min 1 (t + 1/5))

/-- The history state after one regeneration per element of `steps`,
appending each non-empty suggestion (lines 158-159). -/
def histAfter (gen : GenFn) (diff : String) (change_type : Option String) :
    List String → ℚ → List String → List String
  | [], _, h => h
  | _ :: steps, t, h =>
    let s := gen diff t h change_type
    histAfter gen diff change_type steps (min 1 (t + 1/5))
      (if s = "" then h else h ++ [s])

/-- The suggestions generated and shown during a run of regenerations,
in order. -/
def shownDuring (gen : GenFn) (diff : String) (change_type : Option String) :
    List String → ℚ → List String → List String
  | [], _, _ => []
  | _ :: steps, t, h =>
    let s := gen diff t h change_type
    s :: shownDuring gen diff change_type steps (min 1 (t + 1/5))
      (if s = "" then h else h ++ [s])

/-! ### `git` collaboration (src/gcpai.py lines 13-38)

`git` is external; its state is modelled as snapshots: the committed `head`,
the staging `index`, and the `worktree`.  The two commands that
`get_git_diff(staged=True)` issues are interpreted by `gitRun`:
`git add .` copies the working tree into the index, and
`git diff --cached` reports the difference between `head` and `index`
(computed by an abstract diff function `diffOf`). -/

structure GitRepo where
  head : String
  index : String
  worktree : String
deriving DecidableEq

/-- Interpretation of the git commands used by `get_git_diff(staged=True)`:
`git add .` stages the whole working tree; `git diff --cached` reads the
index/HEAD difference and mutates nothing. -/
def gitRun (diffOf : String → String → String) :
    GitRepo → List String → String × GitRepo
  | r, ["git", "add", "."] => ("", { r with index := r.worktree })
  | r, ["git", "diff", "--cached"] => (diffOf r.head r.index, r)
  | r, _ => ("", r)

/-- Model of `run_git_command` (lines 13-30, success path): run the command and
return `result.stdout.strip()`. -/
def run_git_command (run : GitRepo → List String → String × GitRepo)
    (r : GitRepo) (command : List String) : String × GitRepo :=
  let out := run r command
  (pyStrip out.1, out.2)

/-- Model of `get_git_diff` (lines 32-38): with `staged=True`, first `git add .`,
then `git diff --cached`; with a truthy `base_branch`, a three-dot diff
against `origin/<base>`; otherwise the empty string. -/
def get_git_diff (run : GitRepo → List String → String × GitRepo)
    (r : GitRepo) (staged : Bool) (base_branch : Option String) : String × GitRepo :=
  if staged then
    let r1 := (run_git_command run r ["git", "add", "."]).2
    run_git_command run r1 ["git", "diff", "--cached"]
  else
    match base_branch with
    | some b =>
      if b = "" then ("", r)
      else run_git_command run r ["git", "diff", "origin/" ++ b ++ "...HEAD"]
    | none => ("", r)

/-! ### Auxiliary predicates used by the proofs -/

/-- The lowercase ASCII letters. -/
def lowercaseChars : List Char :=
  ['a', 'b', 'c', 'd', 'e', 'f', 'g', 'h', 'i', 'j', 'k', 'l', 'm',
   'n', 'o', 'p', 'q', 'r', 's', 't', 'u', 'v', 'w', 'x', 'y', 'z']

/-- The uppercase ASCII letters. -/
def uppercaseChars : List Char :=
  ['A', 'B', 'C', 'D', 'E', 'F', 'G', 'H', 'I', 'J', 'K', 'L', 'M',
   'N', 'O', 'P', 'Q', 'R', 'S', 'T', 'U', 'V', 'W', 'X', 'Y', 'Z']

/-- A list with no leading and no trailing Python whitespace. -/
def noEdgeSpace (l : List Char) : Prop :=
  (∀ c, l.head? = some c → isPySpace c = false) ∧
  (∀ c, l.getLast? = some c → isPySpace c = false)

/-! ### Character-level lemmas -/

theorem pyToLower_mem (c : Char) : pyToLower c = c ∨ pyToLower c ∈ lowercaseChars := by
  unfold pyToLower
  split <;> simp [lowercaseChars]

theorem pyToUpper_mem (c : Char) : pyToUpper c = c ∨ pyToUpper c ∈ uppercaseChars := by
  unfold pyToUpper
  split <;> simp [uppercaseChars]

theorem pyToLower_fix_of_mem {d : Char} (h : d ∈ lowercaseChars) : pyToLower d = d := by
  fin_cases h <;> rfl

theorem pyToUpper_fix_of_mem {d : Char} (h : d ∈ uppercaseChars) : pyToUpper d = d := by
  fin_cases h <;> rfl

theorem pyToLower_idem (c : Char) : pyToLower (pyToLower c) = pyToLower c := by
  rcases pyToLower_mem c with h | h
  · simp only [h]
  · exact pyToLower_fix_of_mem h

theorem pyToUpper_idem (c : Char) : pyToUpper (pyToUpper c) = pyToUpper c := by
  rcases pyToUpper_mem c with h | h
  · simp only [h]
  · exact pyToUpper_fix_of_mem h

theorem isPySpace_pyToLower (c : Char) : isPySpace (pyToLower c) = isPySpace c := by
  unfold pyToLower
  split <;> rfl

theorem isPySpace_pyToUpper (c : Char) : isPySpace (pyToUpper c) = isPySpace c := by
  unfold pyToUpper
  split <;> rfl

theorem pyToUpper_eq_bracket {c : Char} (h : pyToUpper c = '[') : c = '[' := by
  revert h
  unfold pyToUpper
  split <;> intro h <;> first | exact h | exact absurd h (by decide)

theorem pyToUpper_eq_backtick {c : Char} (h : pyToUpper c = backtickChar) :
    c = backtickChar := by
  revert h
  unfold pyToUpper
  split <;> intro h <;> first | exact h | exact absurd h (by decide)

theorem pyToLower_eq_backtick {c : Char} (h : pyToLower c = backtickChar) :
    c = backtickChar := by
  revert h
  unfold pyToLower
  split <;> intro h <;> first | exact h | exact absurd h (by decide)

/-! ### Strip lemmas -/

theorem dropWhile_head_not (p : Char → Bool) :
    ∀ (l : List Char) (c : Char), (l.dropWhile p).head? = some c → p c = false := by
  intro l
  induction l with
  | nil => intro c h; simp [List.dropWhile] at h
  | cons a l ih =>
    intro c h
    by_cases hp : p a
    · rw [List.dropWhile_cons_of_pos hp] at h
      exact ih c h
    · rw [List.dropWhile_cons_of_neg hp] at h
      simp at h
      rw [← h]
      simp only [Bool.not_eq_true] at hp
      exact hp

theorem dropWhile_eq_self_of_head (p : Char → Bool) (l : List Char)
    (h : ∀ c, l.head? = some c → p c = false) : l.dropWhile p = l := by
  cases l with
  | nil => rfl
  | cons a l =>
    have ha : p a = false := h a rfl
    exact List.dropWhile_cons_of_neg (by simp [ha])

theorem getLast?_of_suffix {l s : List Char} (h : s <:+ l) (hs : s ≠ []) :
    s.getLast? = l.getLast? := by
  obtain ⟨t, rfl⟩ := h
  exact (List.getLast?_append_of_ne_nil t hs).symm

theorem stripL_noEdgeSpace (l : List Char) : noEdgeSpace (stripL l) := by
  unfold stripL noEdgeSpace
  set m := (l.dropWhile isPySpace).reverse with hm
  constructor
  · intro c hc
    rw [List.head?_reverse] at hc
    have hne : m.dropWhile isPySpace ≠ [] := by
      intro h0
      rw [h0] at hc
      simp at hc
    have : (m.dropWhile isPySpace).getLast? = m.getLast? :=
      getLast?_of_suffix (List.dropWhile_suffix isPySpace) hne
    rw [this, hm, List.getLast?_reverse] at hc
    exact dropWhile_head_not isPySpace l c hc
  · intro c hc
    rw [List.getLast?_reverse] at hc
    exact dropWhile_head_not isPySpace m c hc

theorem stripL_eq_self {l : List Char} (h : noEdgeSpace l) : stripL l = l := by
  unfold stripL
  rw [dropWhile_eq_self_of_head isPySpace l h.1]
  rw [dropWhile_eq_self_of_head isPySpace l.reverse
    (fun c hc => h.2 c (by rwa [List.head?_reverse] at hc))]
  exact List.reverse_reverse l

theorem stripL_idem (l : List Char) : stripL (stripL l) = stripL l :=
  stripL_eq_self (stripL_noEdgeSpace l)

theorem mem_stripL {c : Char} {l : List Char} (h : c ∈ stripL l) : c ∈ l := by
  unfold stripL at h
  rw [List.mem_reverse] at h
  have h1 := (List.dropWhile_suffix isPySpace).sublist.mem h
  rw [List.mem_reverse] at h1
  exact (List.dropWhile_suffix isPySpace).sublist.mem h1

/-! ### First-colon split lemmas -/

theorem sfc_none_iff (l : List Char) : splitFirstColon l = none ↔ ':' ∉ l := by
  induction l with
  | nil => simp [splitFirstColon]
  | cons a l ih =>
    by_cases ha : a = ':'
    · subst ha; simp [splitFirstColon]
    · simp [splitFirstColon, ha, Option.map_eq_none', ih, Ne.symm ha]

theorem sfc_some {l p q : List Char} (h : splitFirstColon l = some (p, q)) :
    l = p ++ ':' :: q ∧ ':' ∉ p := by
  induction l generalizing p q with
  | nil => simp [splitFirstColon] at h
  | cons a l ih =>
    by_cases ha : a = ':'
    · subst ha
      simp [splitFirstColon] at h
      obtain ⟨hp, hq⟩ := h
      subst hp
      subst hq
      simp
    · simp only [splitFirstColon, if_neg ha, Option.map_eq_some'] at h
      obtain ⟨x, hs, hpq⟩ := h
      obtain ⟨p', q'⟩ := x
      injection hpq with hp hq
      obtain ⟨hl, hnp⟩ := ih hs
      subst hq
      subst hp
      refine ⟨?_, ?_⟩
      · rw [hl]; rfl
      · intro hmem
        rcases List.mem_cons.1 hmem with hh | hh
        · exact ha hh.symm
        · exact hnp hh

theorem sfc_append {p : List Char} (q : List Char) (hp : ':' ∉ p) :
    splitFirstColon (p ++ ':' :: q) = some (p, q) := by
  induction p with
  | nil => simp [splitFirstColon]
  | cons a p ih =>
    have ha : a ≠ ':' := fun h => hp (h ▸ List.mem_cons_self a p)
    have hp' : ':' ∉ p := fun h => hp (List.mem_cons_of_mem a h)
    simp [splitFirstColon, ha, ih hp']

/-! ### Capitalize lemmas -/

theorem getLast?_cons_ne (a : Char) {l : List Char} (h : l ≠ []) :
    (a :: l).getLast? = l.getLast? := by
  cases l with
  | nil => exact absurd rfl h
  | cons b t => exact List.getLast?_cons_cons

theorem capitalizeL_idem (l : List Char) : capitalizeL (capitalizeL l) = capitalizeL l := by
  cases l with
  | nil => rfl
  | cons c cs =>
    simp only [capitalizeL, List.map_map, pyToUpper_idem]
    congr 1
    exact List.map_congr_left (fun a _ => pyToLower_idem a)

theorem noEdgeSpace_capitalizeL {l : List Char} (h : noEdgeSpace l) :
    noEdgeSpace (capitalizeL l) := by
  cases l with
  | nil => exact h
  | cons c cs =>
    constructor
    · intro d hd
      simp only [capitalizeL, List.head?_cons, Option.some.injEq] at hd
      rw [← hd, isPySpace_pyToUpper]
      exact h.1 c rfl
    · intro d hd
      cases cs with
      | nil =>
        simp only [capitalizeL, List.map_nil] at hd
        simp only [List.getLast?_singleton, Option.some.injEq] at hd
        rw [← hd, isPySpace_pyToUpper]
        exact h.2 c (by simp [List.getLast?_singleton])
      | cons e es =>
        have hne : (e :: es).map pyToLower ≠ [] := by simp
        rw [show capitalizeL (c :: e :: es)
              = pyToUpper c :: (e :: es).map pyToLower from rfl,
           getLast?_cons_ne _ hne, List.getLast?_map] at hd
        cases hg : (e :: es).getLast? with
        | none => rw [hg] at hd; simp at hd
        | some g =>
          rw [hg] at hd
          simp only [Option.map_some', Option.some.injEq] at hd
          rw [← hd, isPySpace_pyToLower]
          exact h.2 g (by rw [getLast?_cons_ne c (by simp), hg])

theorem mem_capitalizeL {c : Char} {l : List Char} (h : c ∈ capitalizeL l) :
    ∃ d ∈ l, c = pyToUpper d ∨ c = pyToLower d := by
  cases l with
  | nil => simp [capitalizeL] at h
  | cons a t =>
    simp only [capitalizeL, List.mem_cons, List.mem_map] at h
    rcases h with h | ⟨d, hd, hdc⟩
    · exact ⟨a, List.mem_cons_self a t, Or.inl h⟩
    · exact ⟨d, List.mem_cons_of_mem a hd, Or.inr hdc.symm⟩

/-! ### Colon-rule lemmas -/

theorem colonRuleL_of_no_colon {l : List Char} (h : ':' ∉ l) : colonRuleL l = l := by
  unfold colonRuleL
  rw [(sfc_none_iff l).2 h]

theorem colonRuleL_of_bracket {l p q : List Char} (hs : splitFirstColon l = some (p, q))
    (hb : (stripL q).head? = some '[') : colonRuleL l = l := by
  unfold colonRuleL
  rw [hs]
  simp [hb]

theorem colonRuleL_of_split {l p q : List Char} (hs : splitFirstColon l = some (p, q))
    (hb : (stripL q).head? ≠ some '[') :
    colonRuleL l = stripL p ++ ':' :: ' ' :: capitalizeL (stripL q) := by
  unfold colonRuleL
  rw [hs]
  simp [hb]

theorem stripL_cons_space (l : List Char) : stripL (' ' :: l) = stripL l := by
  unfold stripL
  rw [List.dropWhile_cons_of_pos (by rfl)]

theorem stripL_type_colon_space {ct : List Char} (h : noEdgeSpace ct) :
    stripL (ct ++ [':', ' ']) = ct ++ [':'] := by
  unfold stripL
  have h1 : (ct ++ [':', ' ']).dropWhile isPySpace = ct ++ [':', ' '] := by
    apply dropWhile_eq_self_of_head
    intro c hc
    rw [List.head?_append] at hc
    cases hh : ct.head? with
    | none => rw [hh] at hc; simp at hc; rw [← hc]; rfl
    | some d => rw [hh] at hc; simp at hc; rw [← hc]; exact h.1 d hh
  rw [h1]
  rw [show (ct ++ [':', ' ']).reverse = ' ' :: ':' :: ct.reverse by simp]
  rw [List.dropWhile_cons_of_pos (by rfl)]
  rw [List.dropWhile_cons_of_neg (by decide)]
  simp

theorem stripL_rewrite_output {ct D : List Char} (hct : noEdgeSpace ct)
    (hD : noEdgeSpace D) (hDne : D ≠ []) :
    stripL (ct ++ ':' :: ' ' :: D) = ct ++ ':' :: ' ' :: D := by
  apply stripL_eq_self
  constructor
  · intro c hc
    rw [List.head?_append] at hc
    cases hh : ct.head? with
    | none => rw [hh] at hc; simp at hc; rw [← hc]; rfl
    | some d => rw [hh] at hc; simp at hc; rw [← hc]; exact hct.1 d hh
  · intro c hc
    rw [List.getLast?_append_of_ne_nil ct (by simp)] at hc
    rw [getLast?_cons_ne ':' (by simp), getLast?_cons_ne ' ' hDne] at hc
    exact hD.2 c hc

/-- One application of the colon rule to a stripped string produces a string
the rule and a further strip leave alone: the heart of the idempotence
analysis. -/
theorem colonRuleL_restrip {u : List Char} (hu : noEdgeSpace u) :
    colonRuleL (stripL (colonRuleL u)) = colonRuleL u := by
  cases hsfc : splitFirstColon u with
  | none =>
    have hcol : ':' ∉ u := (sfc_none_iff u).1 hsfc
    rw [colonRuleL_of_no_colon hcol, stripL_eq_self hu, colonRuleL_of_no_colon hcol]
  | some pq =>
    obtain ⟨p, q⟩ := pq
    by_cases hb : (stripL q).head? = some '['
    · rw [colonRuleL_of_bracket hsfc hb, stripL_eq_self hu,
        colonRuleL_of_bracket hsfc hb]
    · rw [colonRuleL_of_split hsfc hb]
      obtain ⟨hu_eq, hnp⟩ := sfc_some hsfc
      have hct_ne : ':' ∉ stripL p := fun hmem => hnp (mem_stripL hmem)
      have hct_noEdge : noEdgeSpace (stripL p) := stripL_noEdgeSpace p
      cases hcd : stripL q with
      | nil =>
        show colonRuleL (stripL (stripL p ++ [':', ' '])) = stripL p ++ [':', ' ']
        rw [stripL_type_colon_space hct_noEdge]
        rw [colonRuleL_of_split (q := []) (sfc_append [] hct_ne)
          (by rw [show stripL ([] : List Char) = [] from rfl]; simp)]
        rw [stripL_idem]
        rfl
      | cons c0 cs0 =>
        set D := capitalizeL (c0 :: cs0) with hD
        have hD_form : D = pyToUpper c0 :: cs0.map pyToLower := by rw [hD]; rfl
        have hDne : D ≠ [] := by rw [hD_form]; simp
        have hcd_noEdge : noEdgeSpace (c0 :: cs0) := hcd ▸ stripL_noEdgeSpace q
        have hD_noEdge : noEdgeSpace D := hD ▸ noEdgeSpace_capitalizeL hcd_noEdge
        rw [stripL_rewrite_output hct_noEdge hD_noEdge hDne]
        have hsplit2 : splitFirstColon (stripL p ++ ':' :: (' ' :: D))
            = some (stripL p, ' ' :: D) := sfc_append (' ' :: D) hct_ne
        have hstriptail : stripL (' ' :: D) = D := by
          rw [stripL_cons_space]
          exact stripL_eq_self hD_noEdge
        have hb2 : (stripL (' ' :: D)).head? ≠ some '[' := by
          rw [hstriptail, hD_form]
          simp only [List.head?_cons, Option.some.injEq]
          intro hfalse
          apply hb
          rw [hcd, pyToUpper_eq_bracket (Option.some.inj hfalse)]
          rfl
        rw [colonRuleL_of_split hsplit2 hb2]
        rw [hstriptail, stripL_idem, hD, capitalizeL_idem]

/-! ### Character provenance through the colon rule -/

theorem mem_colonRuleL {c : Char} {l : List Char} (h : c ∈ colonRuleL l) :
    c ∈ l ∨ c = ':' ∨ c = ' ' ∨ ∃ d ∈ l, c = pyToUpper d ∨ c = pyToLower d := by
  cases hsfc : splitFirstColon l with
  | none =>
    rw [colonRuleL_of_no_colon ((sfc_none_iff l).1 hsfc)] at h
    exact Or.inl h
  | some pq =>
    obtain ⟨p, q⟩ := pq
    obtain ⟨hl, hnp⟩ := sfc_some hsfc
    by_cases hb : (stripL q).head? = some '['
    · rw [colonRuleL_of_bracket hsfc hb] at h
      exact Or.inl h
    · rw [colonRuleL_of_split hsfc hb] at h
      rw [List.mem_append] at h
      rcases h with h | h
      · exact Or.inl (by rw [hl]; exact List.mem_append.2 (Or.inl (mem_stripL h)))
      · rcases List.mem_cons.1 h with h | h
        · exact Or.inr (Or.inl h)
        · rcases List.mem_cons.1 h with h | h
          · exact Or.inr (Or.inr (Or.inl h))
          · obtain ⟨d, hd, hdc⟩ := mem_capitalizeL h
            refine Or.inr (Or.inr (Or.inr ⟨d, ?_, hdc⟩))
            rw [hl]
            exact List.mem_append.2 (Or.inr (List.mem_cons_of_mem ':' (mem_stripL hd)))

theorem backtick_notMem_colonRuleL {l : List Char} (h : backtickChar ∉ l) :
    backtickChar ∉ colonRuleL l := by
  intro hmem
  rcases mem_colonRuleL hmem with hc | hc | hc | ⟨d, hd, hdc⟩
  · exact h hc
  · exact absurd hc (by decide)
  · exact absurd hc (by decide)
  · rcases hdc with hdc | hdc
    · exact h (pyToUpper_eq_backtick hdc.symm ▸ hd)
    · exact h (pyToLower_eq_backtick hdc.symm ▸ hd)

theorem filter_notBacktick_eq_self {l : List Char} (h : backtickChar ∉ l) :
    l.filter notBacktick = l :=
  List.filter_eq_self.2 (fun a ha => by
    simp only [notBacktick, bne_iff_ne, ne_eq]
    intro hab
    exact h (hab ▸ ha))

theorem postL_eq_of_no_backtick {l : List Char} (h : backtickChar ∉ l) :
    postL l = colonRuleL (stripL l) := by
  unfold postL
  rw [filter_notBacktick_eq_self (fun hm => h (mem_stripL hm))]

/-! ### Negotiation-loop step lemmas -/

theorem decisionOf_accept_iff {line : String} :
    decisionOf line = Decision.accept ↔
      (pyLower (pyStrip line) = "y" ∨ pyLower (pyStrip line) = "") := by
  unfold decisionOf
  by_cases h1 : pyLower (pyStrip line) = "y" ∨ pyLower (pyStrip line) = ""
  · simp [if_pos h1, h1]
  · rw [if_neg h1]
    by_cases h2 : pyLower (pyStrip line) = "r"
    · rw [if_pos h2]; simp [h1]
    · rw [if_neg h2]; simp [h1]

theorem decisionOf_regen_iff {line : String} :
    decisionOf line = Decision.regen ↔
      (¬(pyLower (pyStrip line) = "y" ∨ pyLower (pyStrip line) = "") ∧
        pyLower (pyStrip line) = "r") := by
  unfold decisionOf
  by_cases h1 : pyLower (pyStrip line) = "y" ∨ pyLower (pyStrip line) = ""
  · simp [if_pos h1, h1]
  · rw [if_neg h1]
    by_cases h2 : pyLower (pyStrip line) = "r"
    · rw [if_pos h2]; simp [h1, h2]
    · rw [if_neg h2]; simp [h1, h2]

theorem decisionOf_cancel_iff {line : String} :
    decisionOf line = Decision.cancel ↔
      (¬(pyLower (pyStrip line) = "y" ∨ pyLower (pyStrip line) = "") ∧
        ¬pyLower (pyStrip line) = "r") := by
  unfold decisionOf
  by_cases h1 : pyLower (pyStrip line) = "y" ∨ pyLower (pyStrip line) = ""
  · simp [if_pos h1, h1]
  · rw [if_neg h1]
    by_cases h2 : pyLower (pyStrip line) = "r"
    · rw [if_pos h2]; simp [h1, h2]
    · rw [if_neg h2]; simp [h1, h2]

theorem loop_go_accept (gen : GenFn) (diff : String) (ct : Option String)
    {line : String} (rest : List String) (t : ℚ) (h : List String)
    (hl : decisionOf line = Decision.accept) :
    user_interaction_loop_go gen diff ct (line :: rest) t h
      = (some (some (gen diff t h ct)), [(t, h, gen diff t h ct)]) := by
  have hc := decisionOf_accept_iff.1 hl
  simp only [user_interaction_loop_go]
  rw [if_pos hc]

theorem loop_go_cancel (gen : GenFn) (diff : String) (ct : Option String)
    {line : String} (rest : List String) (t : ℚ) (h : List String)
    (hl : decisionOf line = Decision.cancel) :
    user_interaction_loop_go gen diff ct (line :: rest) t h
      = (some none, [(t, h, gen diff t h ct)]) := by
  have hc := decisionOf_cancel_iff.1 hl
  simp only [user_interaction_loop_go]
  rw [if_neg hc.1, if_neg hc.2]

theorem loop_go_regen (gen : GenFn) (diff : String) (ct : Option String)
    {line : String} (rest : List String) (t : ℚ) (h : List String)
    (hl : decisionOf line = Decision.regen) :
    user_interaction_loop_go gen diff ct (line :: rest) t h
      = ((user_interaction_loop_go gen diff ct rest (min 1 (t + 1/5))
            (if gen diff t h ct = "" then h else h ++ [gen diff t h ct])).1,
         (t, h, gen diff t h ct)
           :: (user_interaction_loop_go gen diff ct rest (min 1 (t + 1/5))
                (if gen diff t h ct = "" then h
                 else h ++ [gen diff t h ct])).2) := by
  have hc := decisionOf_regen_iff.1 hl
  simp only [user_interaction_loop_go]
  rw [if_neg hc.1, if_pos hc.2]

theorem loop_go_regen_run (gen : GenFn) (diff : String) (ct : Option String) :
    ∀ (pre rest : List String) (t : ℚ) (h : List String),
      (∀ l ∈ pre, decisionOf l = Decision.regen) →
      (user_interaction_loop_go gen diff ct (pre ++ rest) t h).1
        = (user_interaction_loop_go gen diff ct rest (tempAfter pre t)
            (histAfter gen diff ct pre t h)).1 := by
  intro pre
  induction pre with
  | nil => intro rest t h _; rfl
  | cons l pre ih =>
    intro rest t h hpre
    rw [List.cons_append,
      loop_go_regen gen diff ct (pre ++ rest) t h (hpre l (List.mem_cons_self l pre))]
    exact ih rest _ _ (fun x hx => hpre x (List.mem_cons_of_mem l hx))

theorem histAfter_eq_shownDuring (gen : GenFn) (diff : String) (ct : Option String)
    (hne : ∀ t h, gen diff t h ct ≠ "") :
    ∀ (pre : List String) (t : ℚ) (h : List String),
      histAfter gen diff ct pre t h = h ++ shownDuring gen diff ct pre t h := by
  intro pre
  induction pre with
  | nil => intro t h; simp [histAfter, shownDuring]
  | cons l pre ih =>
    intro t h
    rw [histAfter, shownDuring, if_neg (hne t h), ih]
    simp

theorem shownDuring_length (gen : GenFn) (diff : String) (ct : Option String) :
    ∀ (pre : List String) (t : ℚ) (h : List String),
      (shownDuring gen diff ct pre t h).length = pre.length := by
  intro pre
  induction pre with
  | nil => intro t h; rfl
  | cons l pre ih => intro t h; rw [shownDuring]; simp [ih]

theorem tempAfter_formula :
    ∀ (pre : List String) (b : ℚ), b ≤ 1 →
      tempAfter pre b = min 1 (b + pre.length * (1/5)) := by
  intro pre
  induction pre with
  | nil =>
    intro b hb
    simp [tempAfter, min_eq_right hb]
  | cons l pre ih =>
    intro b hb
    rw [tempAfter, ih _ (min_le_left _ _), List.length_cons]
    rcases le_or_lt (b + 1/5) 1 with hle | hlt
    · rw [min_eq_right hle]
      congr 1
      push_cast
      ring
    · rw [min_eq_left hlt.le]
      have hlen : (0 : ℚ) ≤ (pre.length : ℚ) := Nat.cast_nonneg _
      rw [min_eq_left (by linarith : (1 : ℚ) ≤ 1 + (pre.length : ℚ) * (1/5))]
      rw [eq_comm]
      apply min_eq_left
      push_cast
      linarith

/-! ### Case-insensitivity of the decision read -/

theorem stripL_map_pyToLower (l : List Char) :
    stripL (l.map pyToLower) = (stripL l).map pyToLower := by
  unfold stripL
  have hps : (isPySpace ∘ pyToLower) = isPySpace := funext isPySpace_pyToLower
  rw [List.dropWhile_map pyToLower isPySpace l, hps,
    ← List.map_reverse, List.dropWhile_map pyToLower isPySpace, hps, ← List.map_reverse]

theorem pyLower_pyLower (s : String) : pyLower (pyLower s) = pyLower s := by
  show (⟨(s.data.map pyToLower).map pyToLower⟩ : String) = ⟨s.data.map pyToLower⟩
  rw [List.map_map]
  congr 1
  exact List.map_congr_left (fun a _ => pyToLower_idem a)

theorem decisionOf_pyLower (line : String) :
    decisionOf (pyLower line) = decisionOf line := by
  have hstrip : pyStrip (pyLower line) = pyLower (pyStrip line) := by
    show (⟨stripL (line.data.map pyToLower)⟩ : String)
      = ⟨(stripL line.data).map pyToLower⟩
    rw [stripL_map_pyToLower]
  unfold decisionOf
  rw [hstrip, pyLower_pyLower]

/-! ### Loop termination and trace head -/

theorem loop_go_terminates (gen : GenFn) (diff : String) (ct : Option String) :
    ∀ (inputs : List String) (t : ℚ) (h : List String),
      (∃ l ∈ inputs, decisionOf l ≠ Decision.regen) →
      ∃ out, (user_interaction_loop_go gen diff ct inputs t h).1 = some out := by
  intro inputs
  induction inputs with
  | nil =>
    intro t h hex
    obtain ⟨l, hl, _⟩ := hex
    exact absurd hl (List.not_mem_nil l)
  | cons a rest ih =>
    intro t h hex
    cases hd : decisionOf a with
    | accept =>
      exact ⟨some (gen diff t h ct), by rw [loop_go_accept gen diff ct rest t h hd]⟩
    | cancel =>
      exact ⟨none, by rw [loop_go_cancel gen diff ct rest t h hd]⟩
    | regen =>
      obtain ⟨l, hl, hlne⟩ := hex
      rcases List.mem_cons.1 hl with rfl | hl2
      · exact absurd hd hlne
      · obtain ⟨out, hout⟩ := ih (min 1 (t + 1/5))
          (if gen diff t h ct = "" then h else h ++ [gen diff t h ct]) ⟨l, hl2, hlne⟩
        exact ⟨out, by rw [loop_go_regen gen diff ct rest t h hd]; exact hout⟩

theorem loop_go_trace_head (gen : GenFn) (diff : String) (ct : Option String)
    (inputs : List String) (t : ℚ) (h : List String) :
    (user_interaction_loop_go gen diff ct inputs t h).2.head?
      = some (t, h, gen diff t h ct) := by
  cases inputs with
  | nil => rfl
  | cons line rest =>
    cases hd : decisionOf line with
    | accept => rw [loop_go_accept gen diff ct rest t h hd]; rfl
    | cancel => rw [loop_go_cancel gen diff ct rest t h hd]; rfl
    | regen => rw [loop_go_regen gen diff ct rest t h hd]; rfl

/-! ### The claims -/

/-- C1 (confirmed): whenever some input line decides other than Regenerate,
the negotiation loop terminates, and its outcome is exactly one of the two
Python return shapes: `some text` (Accepted) or `none` (Canceled).  One input
line is read per decision, case-insensitively after stripping: empty or `y`
accepts, returning the currently shown suggestion; `r` regenerates and
continues; anything else cancels. -/
theorem claim1_loop_outcomes (gen : GenFn) (diff : String) (ct : Option String)
    (inputs : List String) (t : ℚ) (h : List String) :
    ((∃ l ∈ inputs, decisionOf l ≠ Decision.regen) →
      ∃ out : Option String,
        (user_interaction_loop_go gen diff ct inputs t h).1 = some out ∧
          (out = none ∨ ∃ text, out = some text)) ∧
    (∀ line rest, decisionOf line = Decision.accept →
      (user_interaction_loop_go gen diff ct (line :: rest) t h).1
        = some (some (gen diff t h ct))) ∧
    (∀ line rest, decisionOf line = Decision.cancel →
      (user_interaction_loop_go gen diff ct (line :: rest) t h).1 = some none) ∧
    (∀ line rest, decisionOf line = Decision.regen →
      (user_interaction_loop_go gen diff ct (line :: rest) t h).1
        = (user_interaction_loop_go gen diff ct rest (min 1 (t + 1/5))
            (if gen diff t h ct = "" then h else h ++ [gen diff t h ct])).1) ∧
    (∀ line, decisionOf (pyLower line) = decisionOf line) ∧
    decisionOf "" = Decision.accept ∧ decisionOf "y" = Decision.accept ∧
    decisionOf " Y " = Decision.accept ∧ decisionOf "r" = Decision.regen ∧
    decisionOf "R" = Decision.regen ∧ decisionOf "n" = Decision.cancel := by
  refine ⟨?_, ?_, ?_, ?_, decisionOf_pyLower,
    by decide, by decide, by decide, by decide, by decide, by decide⟩
  · intro hex
    obtain ⟨out, hout⟩ := loop_go_terminates gen diff ct inputs t h hex
    refine ⟨out, hout, ?_⟩
    cases out with
    | none => exact Or.inl rfl
    | some text => exact Or.inr ⟨text, rfl⟩
  · intro line rest hd
    rw [loop_go_accept gen diff ct rest t h hd]
  · intro line rest hd
    rw [loop_go_cancel gen diff ct rest t h hd]
  · intro line rest hd
    rw [loop_go_regen gen diff ct rest t h hd]

theorem claim1_loop_outcomes_witness :
    ∃ out : Option String,
      (user_interaction_loop_go (fun _ _ _ _ => "s") "d" none ["n"] (3/10) []).1
          = some out ∧
        (out = none ∨ ∃ text, out = some text) :=
  (claim1_loop_outcomes (fun _ _ _ _ => "s") "d" none ["n"] (3/10) []).1
    ⟨"n", by simp, by decide⟩

/-- C2 (confirmed; Python floats modelled as exact rationals): starting a
negotiation run at base temperature `b ≤ 1`, after `n` Regenerate decisions
the generator is invoked at temperature exactly `min 1 (b + n/5)`
(`0.2 = 1/5`); that schedule is monotone in `n` and never exceeds `1`. -/
theorem claim2_temperature_schedule (gen : GenFn) (diff : String) (ct : Option String)
    (pre : List String) (line : String) (rest : List String) (b : ℚ) (h : List String)
    (hb : b ≤ 1) (hpre : ∀ l ∈ pre, decisionOf l = Decision.regen)
    (hline : decisionOf line = Decision.accept) :
    (user_interaction_loop_go gen diff ct (pre ++ line :: rest) b h).1
      = some (some (gen diff (min 1 (b + pre.length * (1/5)))
          (histAfter gen diff ct pre b h) ct)) ∧
    (∀ m n : ℕ, m ≤ n →
      min 1 (b + (m : ℚ) * (1/5)) ≤ min 1 (b + (n : ℚ) * (1/5))) ∧
    (∀ n : ℕ, min 1 (b + (n : ℚ) * (1/5)) ≤ 1) := by
  refine ⟨?_, ?_, fun n => min_le_left _ _⟩
  · rw [loop_go_regen_run gen diff ct pre (line :: rest) b h hpre,
      loop_go_accept gen diff ct rest _ _ hline,
      tempAfter_formula pre b hb]
  · intro m n hmn
    apply min_le_min le_rfl
    have hc : (m : ℚ) ≤ (n : ℚ) := by exact_mod_cast hmn
    linarith

theorem claim2_temperature_schedule_witness :
    (user_interaction_loop_go (fun _ _ _ _ => "s") "d" none (["r"] ++ [""]) (3/10) []).1
      = some (some "s") := by
  have h := claim2_temperature_schedule (fun _ _ _ _ => "s") "d" none ["r"] "" [] (3/10) []
    (by norm_num)
    (by intro l hl; simp at hl; subst hl; decide)
    (by decide)
  simpa using h.1

/-- C3 (confirmed): when the generator never returns an empty suggestion,
after `n` Regenerate decisions the history handed to the final generator
call is exactly the list of the `n` suggestions shown and rejected, in
order, so its length is exactly `n`.  An empty suggestion is never appended
(the history passes to the next iteration unchanged), and an accepted or
canceled suggestion is never appended (the loop terminates at that very
iteration, performing no further generator call). -/
theorem claim3_history_growth (gen : GenFn) (diff : String) (ct : Option String)
    (pre : List String) (line : String) (rest : List String) (b : ℚ)
    (hpre : ∀ l ∈ pre, decisionOf l = Decision.regen)
    (hline : decisionOf line = Decision.accept) :
    ((∀ t h, gen diff t h ct ≠ "") →
      (user_interaction_loop_go gen diff ct (pre ++ line :: rest) b []).1
        = some (some (gen diff (tempAfter pre b)
            (shownDuring gen diff ct pre b []) ct)) ∧
      (shownDuring gen diff ct pre b []).length = pre.length) ∧
    (∀ (line2 : String) rest2 t h, decisionOf line2 = Decision.regen →
      gen diff t h ct = "" →
      (user_interaction_loop_go gen diff ct (line2 :: rest2) t h).1
        = (user_interaction_loop_go gen diff ct rest2 (min 1 (t + 1/5)) h).1) ∧
    (∀ (line2 : String) rest2 t h, decisionOf line2 ≠ Decision.regen →
      (user_interaction_loop_go gen diff ct (line2 :: rest2) t h).2
        = [(t, h, gen diff t h ct)]) := by
  refine ⟨?_, ?_, ?_⟩
  · intro hne
    constructor
    · rw [loop_go_regen_run gen diff ct pre (line :: rest) b [] hpre,
        loop_go_accept gen diff ct rest _ _ hline,
        histAfter_eq_shownDuring gen diff ct hne pre b []]
      simp
    · exact shownDuring_length gen diff ct pre b []
  · intro line2 rest2 t h hd hempty
    rw [loop_go_regen gen diff ct rest2 t h hd, if_pos hempty]
  · intro line2 rest2 t h hd
    cases hc : decisionOf line2 with
    | accept => rw [loop_go_accept gen diff ct rest2 t h hc]
    | cancel => rw [loop_go_cancel gen diff ct rest2 t h hc]
    | regen => exact absurd hc hd

theorem claim3_history_growth_witness :
    (shownDuring (fun _ _ _ _ => "s") "d" none ["r"] (3/10) []).length = 1 := by
  have h := claim3_history_growth (fun _ _ _ _ => "s") "d" none ["r"] "" [] (3/10)
    (by intro l hl; simp at hl; subst hl; decide)
    (by decide)
  exact (h.1 (fun _ _ => by show ("s" : String) ≠ ""; decide)).2

/-- C4 counterexample: the post-processing that the program applies to
generator output is not idempotent on all strings.  Backtick removal
happens after the whitespace strip, so backticks can shield interior
whitespace from the strip: one application leaves a string with surrounding
whitespace that a second application removes. -/
theorem claim4_not_idempotent :
    postprocessSuggestion (postprocessSuggestion "` x `")
      ≠ postprocessSuggestion "` x `" := by decide

/-- C4 amended (proved): for every generator output that contains no
backtick character, the post-processing is idempotent; since the
normalization is shared by every artifact kind, this covers all kinds. -/
theorem claim4_idem_of_no_backtick (s : String) (h : backtickChar ∉ s.data) :
    postprocessSuggestion (postprocessSuggestion s) = postprocessSuggestion s := by
  show (⟨postL (postL s.data)⟩ : String) = ⟨postL s.data⟩
  congr 1
  rw [postL_eq_of_no_backtick h]
  have hu : backtickChar ∉ stripL s.data := fun hm => h (mem_stripL hm)
  have hcr : backtickChar ∉ colonRuleL (stripL s.data) := backtick_notMem_colonRuleL hu
  rw [postL_eq_of_no_backtick hcr]
  exact colonRuleL_restrip (stripL_noEdgeSpace s.data)

theorem claim4_idem_of_no_backtick_witness :
    backtickChar ∉ ("FEAT:add login" : String).data ∧
      postprocessSuggestion (postprocessSuggestion "FEAT:add login")
        = postprocessSuggestion "FEAT:add login" :=
  ⟨by decide, claim4_idem_of_no_backtick "FEAT:add login" (by decide)⟩

/-- C5 counterexample: the code does not lower-case the prefix before the
first colon — it keeps it verbatim (only trimmed) — so normalizing the raw
text `"FEAT:add login"` yields `"FEAT: Add login"`, not the claimed
`"feat: Add login"`. -/
theorem claim5_prefix_not_lowercased :
    postprocessSuggestion "FEAT:add login" = "FEAT: Add login" ∧
      postprocessSuggestion "FEAT:add login" ≠ "feat: Add login" := by
  constructor <;> decide

/-- C5 amended (proved): PR-title post-processing splits on the first colon,
trims both parts, keeps the case of the prefix unchanged, capitalizes the
description (`"FEAT:add login"` becomes `"FEAT: Add login"`), and a string
without a colon passes the colon rule unchanged — only surrounding
whitespace and backticks are removed. -/
theorem claim5_pr_title_normalization (complete : String → ℚ → String) (diff : String) :
    (generate_pr_title_default complete diff
      = postprocessSuggestion (complete (generate_pr_title_prompt diff) (2/5))) ∧
    postprocessSuggestion "FEAT:add login" = "FEAT: Add login" ∧
    (∀ s : String, ':' ∉ s.data →
      postprocessSuggestion s = ⟨(stripL s.data).filter notBacktick⟩) := by
  refine ⟨rfl, by decide, ?_⟩
  intro s hs
  show (⟨postL s.data⟩ : String) = ⟨(stripL s.data).filter notBacktick⟩
  congr 1
  apply colonRuleL_of_no_colon
  intro hmem
  exact hs (mem_stripL (List.mem_filter.1 hmem).1)

theorem claim5_pr_title_normalization_witness :
    generate_pr_title_default (fun _ _ => "FEAT:add login") "d" = "FEAT: Add login" := by
  have h := claim5_pr_title_normalization (fun _ _ => "FEAT:add login") "d"
  exact h.1.trans h.2.1

/-- C6 counterexample: branch-name post-processing is not whitespace
trimming only.  The shared colon rule also fires on branch names: a raw
generator output `"fix:my-branch"` comes back as `"fix: My-branch"` — a
space is inserted and the case of the description changes, which differs
from the raw text by more than surrounding whitespace. -/
theorem claim6_branch_case_changed :
    generate_branch_name (fun _ _ => "fix:my-branch") "d" (1/2) [] none
      = "fix: My-branch" ∧
    pyStrip "fix:my-branch" ≠ "fix: My-branch" := by
  constructor <;> decide

/-- C6 amended (proved): branch names receive exactly the same shared
post-processing as every other artifact kind (strip, backtick removal,
colon rule); only when the raw output contains no colon and no backtick is
the returned suggestion the raw text with surrounding whitespace
trimmed and nothing else changed. -/
theorem claim6_branch_shared_normalization (complete : String → ℚ → String)
    (diff : String) (temperature : ℚ) (history : List String)
    (change_type : Option String) :
    (generate_branch_name complete diff temperature history change_type
      = postprocessSuggestion
          (complete (generate_branch_name_prompt diff history change_type)
            temperature)) ∧
    (∀ s : String, ':' ∉ s.data → backtickChar ∉ s.data →
      postprocessSuggestion s = pyStrip s) := by
  refine ⟨rfl, ?_⟩
  intro s hc hb
  show (⟨postL s.data⟩ : String) = ⟨stripL s.data⟩
  congr 1
  unfold postL
  rw [filter_notBacktick_eq_self (fun hm => hb (mem_stripL hm))]
  exact colonRuleL_of_no_colon (fun hm => hc (mem_stripL hm))

theorem claim6_branch_shared_normalization_witness :
    postprocessSuggestion " feat/add-login " = pyStrip " feat/add-login " := by
  have h := claim6_branch_shared_normalization (fun _ _ => "") "d" (1/2) [] none
  exact h.2 " feat/add-login " (by decide) (by decide)

/-- C7 counterexample: the single-shot PR-title generation does not run at
base temperature 0.5 — `main` calls `generate_pr_title` with its default
temperature 0.4, as the completion service can observe. -/
theorem claim7_pr_title_temperature :
    generate_pr_title_default
        (fun _ t => if t = 1/2 then "temp-was-half" else "temp-was-two-fifths") "d"
      = "temp-was-two-fifths" ∧
    ("temp-was-two-fifths" : String) ≠ "temp-was-half" := by
  constructor
  · show postprocessSuggestion
        (if (2/5 : ℚ) = 1/2 then "temp-was-half" else "temp-was-two-fifths")
      = "temp-was-two-fifths"
    rw [if_neg (by norm_num : ¬((2 : ℚ)/5 = 1/2))]
    decide
  · decide

/-- C7 amended (proved): the first generator call of a negotiation runs at
base temperature 1/2 for the branch-name loop (its prompt question contains
"branch") and 3/10 for the commit-message loop, each with an empty
history; the single-shot PR-title generation runs at 2/5 (the signature
default), and no PR-body generation exists in the program (the PR body is
assembled from the commit list, not generated). -/
theorem claim7_base_temperatures (gen : GenFn) (complete : String → ℚ → String)
    (diff : String) (ct : Option String) (inputs : List String) :
    (user_interaction_loop "Suggested branch name" gen diff ct inputs).2.head?
      = some (1/2, [], gen diff (1/2) [] ct) ∧
    (user_interaction_loop "Suggested commit message" gen diff ct inputs).2.head?
      = some (3/10, [], gen diff (3/10) [] ct) ∧
    generate_pr_title_default complete diff
      = get_openai_suggestion complete (generate_pr_title_prompt diff) (2/5) := by
  refine ⟨?_, ?_, rfl⟩
  · unfold user_interaction_loop
    rw [show suggestedTemperature "Suggested branch name" = 1/2 from by
      unfold suggestedTemperature
      rw [if_pos (by decide : pyContains "branch" (pyLower "Suggested branch name") = true)]]
    exact loop_go_trace_head gen diff ct inputs (1/2) []
  · unfold user_interaction_loop
    rw [show suggestedTemperature "Suggested commit message" = 3/10 from by
      unfold suggestedTemperature
      rw [if_neg (by decide :
        ¬pyContains "branch" (pyLower "Suggested commit message") = true)]]
    exact loop_go_trace_head gen diff ct inputs (3/10) []

/-- C8 (confirmed): a failing completion call makes `get_openai_suggestion`
report the error and exit the process with code 1; lifted through the
commit-message negotiation, a failure of the very first generation call
ends the whole loop with exit code 1 for every possible input sequence —
no outcome, history or temperature state is returned to any caller, and no
other completion call is consulted (the hypothesis constrains the service
only at the single first-call argument pair). -/
theorem claim8_generation_failure_exits (complete : String → ℚ → Except String String)
    (msg : String) :
    (∀ prompt temperature, complete prompt temperature = .error msg →
      get_openai_suggestion_e complete prompt temperature = Except.error 1) ∧
    (∀ (diff : String) (ct : Option String) (inputs : List String),
      complete (generate_commit_message_prompt diff [] ct) (3/10) = .error msg →
      user_interaction_loop_e "Suggested commit message"
          (fun d t h c => get_openai_suggestion_e complete
            (generate_commit_message_prompt d h c) t)
          diff ct inputs = Except.error 1) := by
  constructor
  · intro prompt temperature h
    unfold get_openai_suggestion_e
    rw [h]
  · intro diff ct inputs h
    have hg : get_openai_suggestion_e complete
        (generate_commit_message_prompt diff [] ct) (3/10) = Except.error 1 := by
      unfold get_openai_suggestion_e
      rw [h]
    unfold user_interaction_loop_e
    rw [show suggestedTemperature "Suggested commit message" = 3/10 from by
      unfold suggestedTemperature
      rw [if_neg (by decide :
        ¬pyContains "branch" (pyLower "Suggested commit message") = true)]]
    unfold user_interaction_loop_go_e
    rw [hg]

theorem claim8_generation_failure_exits_witness :
    get_openai_suggestion_e (fun _ _ => Except.error "boom") "p" (3/10)
      = Except.error 1 :=
  (claim8_generation_failure_exits (fun _ _ => Except.error "boom") "boom").1
    "p" (3/10) rfl

/-- C9 (confirmed): capturing the staged diff mutates the repository.
`get_git_diff(staged=True)` first runs `git add .` — staging the whole
working tree — and only then reads `git diff --cached`, so the diff text it
returns covers every working-tree change relative to HEAD (not only what
was already staged), and the final repository state has its index replaced
by the working-tree snapshot. -/
theorem claim9_staged_diff (diffOf : String → String → String) (r : GitRepo) :
    get_git_diff (gitRun diffOf) r true none
      = (pyStrip (diffOf r.head r.worktree), { r with index := r.worktree }) := rfl

/-- C10 (confirmed): on a post-strip, post-backtick-removal suggestion that
contains a colon, the shared normalization rewrites it to the trimmed
prefix, a colon and a space, and the Python-`capitalize`d trimmed
description — first character upper-cased, every later character
lower-cased, so interior capitals are lost; when that description starts
with `'['` the suggestion is left entirely unchanged. -/
theorem claim10_colon_rule_spec (s : String) (p q : List Char)
    (hsplit : splitFirstColon ((stripL s.data).filter notBacktick) = some (p, q)) :
    ((stripL q).head? ≠ some '[' →
      postprocessSuggestion s
        = ⟨stripL p ++ ':' :: ' ' ::
            (match stripL q with
             | [] => []
             | c :: cs => pyToUpper c :: cs.map pyToLower)⟩) ∧
    ((stripL q).head? = some '[' →
      postprocessSuggestion s = ⟨(stripL s.data).filter notBacktick⟩) := by
  constructor
  · intro hb
    show (⟨postL s.data⟩ : String) = _
    unfold postL
    rw [colonRuleL_of_split hsplit hb]
    congr 1
  · intro hb
    show (⟨postL s.data⟩ : String) = _
    unfold postL
    rw [colonRuleL_of_bracket hsplit hb]

theorem claim10_colon_rule_spec_witness :
    postprocessSuggestion "feat: my API" = "feat: My api" := by
  have h := claim10_colon_rule_spec "feat: my API"
    "feat".data " my API".data (by decide)
  exact (h.1 (by decide)).trans (by decide)
